import Mathlib

/-!
Verification of the Abacus file-loader core (app.py): the resilient
pipe-delimited text parser (parse_text_file) and the multi-rule XLOOKUP
merge engine (the run_lookup block).

The parser model works on lines as lists of characters; a physical input
stream is modelled as the list of its physical lines.  Python string
operations are embedded directly:
  * s.strip(chars)  drops all leading and trailing characters of the set
  * s.count(c), s.replace(c, ""), s.split("|") are List.count / filter / split
The whitespace set of Python str.strip() is modelled by its ASCII part,
which is all the claims exercise.

The merge engine model follows the pandas calls of the source:
  * secondary_df.set_index(sk)[so] resolves the key column and the source
    column (KeyError when a label is absent; a duplicated label is also an
    error, as pandas refuses to produce a Series for it);
  * result_df[pk].map(map_series) requires the map's index to be unique:
    pandas Index.get_indexer raises InvalidIndexError on a non-unique index,
    and with a unique index a key maps to its single row's value, while a
    missing key maps to NaN (modelled by none);
  * result_df[new_col] = series appends a fresh column on the right; the
    while-loop over used_columns guarantees new_col is fresh, which is
    proved below as chooseName_not_mem.
Each except-branch of the source catches the per-rule error and records it.
-/

/-- Characters stripped by Python str.strip() with no argument (ASCII part). -/
def isPySpace (c : Char) : Bool :=
  c == ' ' || c == '\t' || c == '\n' || c == '\r' || c == '\x0b' || c == '\x0c'

/-- Drop the longest suffix whose characters all satisfy p (right half of Python strip). -/
def dropRightWhile (p : Char → Bool) (l : List Char) : List Char :=
  (l.reverse.dropWhile p).reverse

/-- Python s.strip(chars): drop matching characters from both ends. -/
def pyStrip (p : Char → Bool) (l : List Char) : List Char :=
  dropRightWhile p (l.dropWhile p)

/-- line.strip("\n").strip() from the parser loop. -/
def lineClean (l : List Char) : List Char :=
  pyStrip isPySpace (pyStrip (fun c => c == '\n') l)

/-- Quote-balance repair: if the line holds an odd number of double quotes,
remove every double quote (line.replace performed on odd count). -/
def quoteRepair (l : List Char) : List Char :=
  if l.count '\"' % 2 ≠ 0 then l.filter (fun c => !(c == '\"')) else l

/-- line.split("|"): split on the pipe character, Python semantics
(empty input gives one empty field; separators never disappear). -/
def splitPipe : List Char → List (List Char)
  | [] => [[]]
  | c :: rest =>
    if c = '|' then [] :: splitPipe rest
    else
      match splitPipe rest with
      | [] => [[c]]
      | f :: fs => (c :: f) :: fs

/-- Per-field cleaning p.strip().strip('"'): strip whitespace, then strip
all leading and trailing double-quote characters. -/
def cellClean (f : List Char) : List Char :=
  pyStrip (fun c => c == '\"') (pyStrip isPySpace f)

/-- Width normalization against the locked column count: pad short rows with
empty fields on the right, truncate long rows on the right. -/
def normWidth (parts : List (List Char)) (cc : Nat) : List (List Char) :=
  if parts.length < cc then parts ++ List.replicate (cc - parts.length) []
  else if cc < parts.length then parts.take cc
  else parts

/-- The preview cap test "if nrows and len(rows) >= nrows": a cap of None or 0
is falsy and never stops reading. -/
def capReached (nrows : Option Nat) (produced : Nat) : Bool :=
  match nrows with
  | none => false
  | some n => decide (n ≠ 0 ∧ n ≤ produced)

/-- The parser's line loop: accumulated produced rows and the column count
locked in by the first non-blank line are threaded as explicit state. -/
def parseGo : List (List Char) → Option Nat → Option Nat → List (List (List Char)) →
    List (List (List Char))
  | [], _, _, rows => rows
  | l :: ls, nrows, colCount, rows =>
    let line := lineClean l
    if capReached nrows rows.length then rows
    else if line.isEmpty then parseGo ls nrows colCount rows
    else
      let line2 := quoteRepair line
      let parts := splitPipe line2
      match colCount with
      | none =>
        parseGo ls nrows (some parts.length) (rows ++ [parts.map cellClean])
      | some cc =>
        parseGo ls nrows (some cc) (rows ++ [(normWidth parts cc).map cellClean])

/-- A parsed table: the header row (pd column labels) and the data rows. -/
structure PTable where
  header : List (List Char)
  rows : List (List (List Char))
deriving DecidableEq

/-- parse_text_file: run the line loop, then take the first produced row as the
header (df.columns = df.iloc[0]) and the remaining rows as data (df = df[1:]).
When zero rows were produced, pd.DataFrame(rows) is empty and df.iloc[0]
raises IndexError, modelled by the error result. -/
def parse_text_file (lines : List (List Char)) (nrows : Option Nat) :
    Except String PTable :=
  match parseGo lines nrows none [] with
  | [] => Except.error "IndexError"
  | h :: t => Except.ok ⟨h, t⟩

/-- Shorthand turning a string literal into its character list. -/
def strL (s : String) : List Char := s.data

/-- A cell has no double quote left at either end. -/
def noBoundQuote (c : List Char) : Bool :=
  !(c.head? == some '\"') && !(c.getLast? == some '\"')

/-- Modelled from the spec: the claimed per-field cleaning that removes exactly
one layer of surrounding double quotes (used only to compare against the
source's cleaning). -/
def stripOneQuoteLayer (l : List Char) : List Char :=
  if 2 ≤ l.length ∧ l.head? = some '\"' ∧ l.getLast? = some '\"' then
    (l.drop 1).dropLast
  else l

/-- Concrete input lines of the spec's parsing example. -/
def exLines : List (List Char) := [strL "A|B|C", strL "1|2|3", strL "4|5"]

/-- The table the spec's parsing example must produce. -/
def exTable : PTable :=
  ⟨[strL "A", strL "B", strL "C"],
   [[strL "1", strL "2", strL "3"], [strL "4", strL "5", []]]⟩

/-- The table produced from the example lines under a row cap of 2: the header
consumes one unit of the cap, so a single data row survives. -/
def exTablePrev : PTable :=
  ⟨[strL "A", strL "B", strL "C"], [[strL "1", strL "2", strL "3"]]⟩

/-- Decimal digit character. -/
def decDigit (d : Nat) : Char :=
  match d with
  | 0 => '0'
  | 1 => '1'
  | 2 => '2'
  | 3 => '3'
  | 4 => '4'
  | 5 => '5'
  | 6 => '6'
  | 7 => '7'
  | 8 => '8'
  | _ => '9'

/-- Fuelled decimal rendering of a natural number (digits of n, most
significant first); the fuel only forces structural recursion. -/
def natToDecGo : Nat → Nat → List Char
  | 0, _ => []
  | fuel + 1, n =>
    if n < 10 then [decDigit n] else natToDecGo fuel (n / 10) ++ [decDigit (n % 10)]

/-- Decimal rendering of a natural number, the embedding of Python str(c). -/
def natToDec (n : Nat) : List Char :=
  natToDecGo (n + 1) n

/-- Decimal rendering as a string. -/
def natStr (n : Nat) : String :=
  ⟨natToDec n⟩

/-- The collision-resolution while loop of run_lookup: try base_2, base_3, ...
until a name is free of used_columns.  The fuel bounds the loop; fuel
used.length + 1 is enough to reach a free name (chooseName_not_mem below). -/
def chooseLoop (base : String) (used : List String) : Nat → Nat → String
  | c, 0 => base ++ "_" ++ natStr c
  | c, fuel + 1 =>
    let cand := base ++ "_" ++ natStr c
    if cand ∈ used then chooseLoop base used (c + 1) fuel else cand

/-- new_col selection of run_lookup: the base name when it is unused,
otherwise the first free suffixed name. -/
def chooseName (base : String) (used : List String) : String :=
  if base ∈ used then chooseLoop base used 2 (used.length + 1) else base

/-- A pandas DataFrame of the merge engine: ordered column labels and rows of
cells; none models NaN (an absent cell). -/
structure DF where
  cols : List String
  rows : List (List (Option String))
deriving DecidableEq

/-- Resolve a column label to its position.  pandas produces a Series for a
label only when the label occurs exactly once; a missing label raises
KeyError and a duplicated label is likewise a per-rule failure. -/
def colIdx (cols : List String) (name : String) : Option Nat :=
  if cols.count name = 1 then cols.findIdx? (fun c => c == name) else none

/-- The key column of the secondary table (the index of set_index(sk)). -/
def keyColumn (s : DF) (ski : Nat) : List (Option String) :=
  s.rows.map (fun r => r.getD ski none)

/-- The source column of the secondary table as seen after set_index(sk)
removed the key column. -/
def srcColumn (s : DF) (ski soi : Nat) : List (Option String) :=
  s.rows.map (fun r => (r.eraseIdx ski).getD soi none)

/-- Lookup of one key in the unique-index map built by set_index(sk)[so]. -/
def lookupKey (k : Option String) : List (Option String × Option String) → Option String
  | [] => none
  | (a, v) :: rest => if a = k then v else lookupKey k rest

/-- One rule body: map_series = secondary_df.set_index(sk)[so] followed by
result_df[pk].map(map_series).  Any of the pandas failure modes (absent or
duplicated labels, non-unique map index) is an error caught by the
per-rule except branch. -/
def applyRule (secondary result : DF) (pk sk so : String) :
    Except String (List (Option String)) :=
  match colIdx secondary.cols sk with
  | none => Except.error "KeyError-set-index"
  | some ski =>
    match colIdx (secondary.cols.eraseIdx ski) so with
    | none => Except.error "KeyError-source-column"
    | some soi =>
      match colIdx result.cols pk with
      | none => Except.error "KeyError-primary-column"
      | some pki =>
        if (keyColumn secondary ski).Nodup then
          Except.ok (result.rows.map (fun r =>
            lookupKey (r.getD pki none)
              ((keyColumn secondary ski).zip (srcColumn secondary ski soi))))
        else Except.error "InvalidIndexError"

/-- The run_lookup accumulator: the growing result frame, the registered
column names, and the indices of rules that failed (st.error calls). -/
structure MergeState where
  df : DF
  used : List String
  errs : List Nat
deriving DecidableEq

/-- One iteration of the rule loop: pick the collision-free name, register it
immediately, then run the rule body; on success append the new column on the
right, on failure record the rule index and leave the frame unchanged. -/
def stepRule (secondary : DF) (st : MergeState) (idx : Nat)
    (r : String × String × String) : MergeState :=
  let newCol := chooseName (r.1 ++ "_FROM_" ++ r.2.2) st.used
  match applyRule secondary st.df r.1 r.2.1 r.2.2 with
  | Except.ok col =>
    ⟨⟨st.df.cols ++ [newCol], List.zipWith (fun row v => row ++ [v]) st.df.rows col⟩,
     st.used ++ [newCol], st.errs⟩
  | Except.error _ => ⟨st.df, st.used ++ [newCol], st.errs ++ [idx]⟩

/-- The rule loop, rules processed in submission order with 1-based indices. -/
def goRules (secondary : DF) : MergeState → Nat → List (String × String × String) →
    MergeState
  | st, _, [] => st
  | st, idx, r :: rs => goRules secondary (stepRule secondary st idx r) (idx + 1) rs

/-- The full merge: result_df = primary_df.copy(),
used_columns = set(result_df.columns), then every rule in order. -/
def run_lookup (primary secondary : DF) (rules : List (String × String × String)) :
    MergeState :=
  goRules secondary ⟨primary, primary.cols, []⟩ 1 rules

/-- One result frame extends another: same number of rows, the original
columns as a prefix, every row extended on the right only. -/
def ExtendsDF (base cur : DF) : Prop :=
  cur.rows.length = base.rows.length ∧
  (∃ ex, cur.cols = base.cols ++ ex) ∧
  ∀ i, ∃ exr, cur.rows.getD i [] = base.rows.getD i [] ++ exr

/-- Primary table of the concrete merge examples. -/
def dfP : DF := ⟨["ID"], [[some "1"]]⟩

/-- Secondary table with a duplicated key value in column ID. -/
def dfSdup : DF := ⟨["ID", "NAME"], [[some "1", some "x"], [some "1", some "y"]]⟩

/-- Primary table whose key value 7 occurs in no secondary table. -/
def dfP7 : DF := ⟨["ID"], [[some "7"]]⟩

/-- Secondary table with a duplicated key value in column K. -/
def dfSdup2 : DF := ⟨["K", "V"], [[some "1", some "a"], [some "1", some "b"]]⟩

/-- Secondary table with unique key values in column K. -/
def dfSuniq : DF := ⟨["K", "V"], [[some "1", some "a"], [some "2", some "b"]]⟩

/-- C1: the spec says parse never fails on malformed or empty content and that
zero produced rows give an empty table with no columns.  The code instead
reaches df.iloc[0] on a zero-row DataFrame and raises IndexError, both for an
empty stream and for a stream of only blank lines. -/
theorem c1_zero_rows_raise :
    parse_text_file [] none = Except.error "IndexError" ∧
    parse_text_file [strL "", strL "   "] none = Except.error "IndexError" := by
  exact ⟨rfl, rfl⟩

/-- Unfolding: the loop on an exhausted stream returns the produced rows. -/
theorem parseGo_nil (nrows colCount : Option Nat) (rows : List (List (List Char))) :
    parseGo [] nrows colCount rows = rows := rfl

/-- Unfolding: once the row cap is reached the loop stops (break). -/
theorem parseGo_cons_cap (l : List Char) (ls : List (List Char)) (nrows colCount : Option Nat)
    (rows : List (List (List Char))) (hc : capReached nrows rows.length = true) :
    parseGo (l :: ls) nrows colCount rows = rows := by
  simp [parseGo, hc]

/-- Unfolding: a blank line is skipped (continue). -/
theorem parseGo_cons_blank (l : List Char) (ls : List (List Char)) (nrows colCount : Option Nat)
    (rows : List (List (List Char))) (hc : capReached nrows rows.length = false)
    (hb : (lineClean l).isEmpty = true) :
    parseGo (l :: ls) nrows colCount rows = parseGo ls nrows colCount rows := by
  simp [parseGo, hc, hb]

/-- Unfolding: the first non-blank line locks the column count and is kept raw
apart from field cleaning. -/
theorem parseGo_cons_first (l : List Char) (ls : List (List Char)) (nrows : Option Nat)
    (rows : List (List (List Char))) (hc : capReached nrows rows.length = false)
    (hb : (lineClean l).isEmpty = false) :
    parseGo (l :: ls) nrows none rows =
      parseGo ls nrows (some (splitPipe (quoteRepair (lineClean l))).length)
        (rows ++ [(splitPipe (quoteRepair (lineClean l))).map cellClean]) := by
  simp [parseGo, hc, hb]

/-- Unfolding: lines after the lock-in are width-normalized then cleaned. -/
theorem parseGo_cons_locked (l : List Char) (ls : List (List Char)) (nrows : Option Nat)
    (n : Nat) (rows : List (List (List Char))) (hc : capReached nrows rows.length = false)
    (hb : (lineClean l).isEmpty = false) :
    parseGo (l :: ls) nrows (some n) rows =
      parseGo ls nrows (some n)
        (rows ++ [(normWidth (splitPipe (quoteRepair (lineClean l))) n).map cellClean]) := by
  simp [parseGo, hc, hb]

/-- Width normalization always returns exactly the locked number of fields. -/
theorem normWidth_length (parts : List (List Char)) (cc : Nat) :
    (normWidth parts cc).length = cc := by
  unfold normWidth
  by_cases h1 : parts.length < cc
  · simp [h1]
    omega
  · by_cases h2 : cc < parts.length
    · simp [h1, h2, List.length_take]
      omega
    · simp [h1, h2]
      omega

/-- No cap can be reached before any row was produced. -/
theorem capReached_zero (nrows : Option Nat) : capReached nrows 0 = false := by
  cases nrows with
  | none => rfl
  | some n =>
    simp [capReached]

/-- Once the column count is locked at n, every produced row has n cells. -/
theorem parseGo_allLen (ls : List (List Char)) (nrows : Option Nat) (n : Nat) :
    ∀ rows, (∀ r ∈ rows, r.length = n) →
      ∀ r ∈ parseGo ls nrows (some n) rows, r.length = n := by
  induction ls with
  | nil =>
    intro rows h
    simpa [parseGo_nil] using h
  | cons l ls ih =>
    intro rows h
    by_cases hc : capReached nrows rows.length = true
    · rw [parseGo_cons_cap _ _ _ _ _ hc]
      exact h
    · have hc' : capReached nrows rows.length = false := by
        simpa using hc
      by_cases hb : (lineClean l).isEmpty = true
      · rw [parseGo_cons_blank _ _ _ _ _ hc' hb]
        exact ih rows h
      · have hb' : (lineClean l).isEmpty = false := by
          simpa using hb
        rw [parseGo_cons_locked _ _ _ _ _ hc' hb']
        refine ih _ ?_
        intro r hr
        rcases List.mem_append.1 hr with h1 | h1
        · exact h r h1
        · have hr2 : r = (normWidth (splitPipe (quoteRepair (lineClean l))) n).map cellClean := by
            simpa using h1
        
          rw [hr2, List.length_map, normWidth_length]

/-- Every run of the loop from the initial state produces rows of one
common length. -/
theorem parseGo_start_allLen (ls : List (List Char)) (nrows : Option Nat) :
    ∃ n, ∀ r ∈ parseGo ls nrows none [], r.length = n := by
  induction ls with
  | nil =>
    exact ⟨0, by simp [parseGo_nil]⟩
  | cons l ls ih =>
    by_cases hb : (lineClean l).isEmpty = true
    · rw [parseGo_cons_blank _ _ _ _ _ (capReached_zero nrows) hb]
      exact ih
    · have hb' : (lineClean l).isEmpty = false := by
        simpa using hb
      rw [parseGo_cons_first _ _ _ _ (capReached_zero nrows) hb']
      refine ⟨(splitPipe (quoteRepair (lineClean l))).length, ?_⟩
      refine parseGo_allLen _ _ _ _ ?_
      intro r hr
      have hr2 : r = (splitPipe (quoteRepair (lineClean l))).map cellClean := by
        simpa using hr
      rw [hr2, List.length_map]

/-- C4: rectangularity.  Whatever the stream content, every data row of a
successfully parsed table has exactly as many cells as the header. -/
theorem c4_rectangularity (lines : List (List Char)) (nrows : Option Nat) (t : PTable)
    (h : parse_text_file lines nrows = Except.ok t) :
    (t.rows.all fun r => r.length == t.header.length) = true := by
  obtain ⟨n, hn⟩ := parseGo_start_allLen lines nrows
  unfold parse_text_file at h
  cases hg : parseGo lines nrows none [] with
  | nil =>
    rw [hg] at h
    cases h
  | cons hd tl =>
    rw [hg] at h
    injection h with h'
    rw [hg] at hn
    have hhd : hd.length = n := hn hd (by simp)
    rw [List.all_eq_true]
    intro r hr
    have hrn : r.length = n := hn r (by
      rw [← h'] at hr
      exact List.mem_cons_of_mem _ hr)
    have hht : t.header = hd := by rw [← h']
    rw [beq_iff_eq, hrn, hht, hhd]

/-- C4 witness at the example lines. -/
theorem c4_rectangularity_witness :
    (exTable.rows.all fun r => r.length == exTable.header.length) = true :=
  c4_rectangularity exLines none exTable rfl

/-- C9: width normalization.  A short row is padded with empty fields on the
right, a long row is truncated on the right, and the spec's example stream
parses to exactly the stated table. -/
theorem c9_width_normalization :
    (∀ parts : List (List Char), ∀ cc, parts.length ≤ cc →
        normWidth parts cc = parts ++ List.replicate (cc - parts.length) []) ∧
    (∀ parts : List (List Char), ∀ cc, cc ≤ parts.length →
        normWidth parts cc = parts.take cc) ∧
    parse_text_file exLines none = Except.ok exTable := by
  refine ⟨?_, ?_, rfl⟩
  · intro parts cc h
    unfold normWidth
    by_cases h1 : parts.length < cc
    · simp [h1]
    · have he : parts.length = cc := by omega
      have h2 : ¬ cc < parts.length := by omega
      simp [h1, h2, he]
  · intro parts cc h
    unfold normWidth
    by_cases h2 : cc < parts.length
    · have h1 : ¬ parts.length < cc := by omega
      simp [h1, h2]
    · have he : cc = parts.length := by omega
      have h1 : ¬ parts.length < cc := by omega
      simp [h1, h2, he]

/-- C9 witness: the padding branch applied to the example's short row. -/
theorem c9_width_normalization_witness :
    normWidth [strL "4", strL "5"] 3 =
      [strL "4", strL "5"] ++ List.replicate (3 - [strL "4", strL "5"].length) [] :=
  c9_width_normalization.1 [strL "4", strL "5"] 3 (by decide)

/-- A cap of zero is falsy in the cap test. -/
theorem capReached_some_zero (m : Nat) : capReached (some 0) m = false := by
  simp [capReached]

/-- No cap is never reached. -/
theorem capReached_none (m : Nat) : capReached none m = false := rfl

/-- A run with cap 0 is the run with no cap at all, for any loop state. -/
theorem parseGo_zerocap (ls : List (List Char)) :
    ∀ colCount rows, parseGo ls (some 0) colCount rows = parseGo ls none colCount rows := by
  induction ls with
  | nil =>
    intro colCount rows
    rfl
  | cons l ls ih =>
    intro colCount rows
    by_cases hb : (lineClean l).isEmpty = true
    · rw [parseGo_cons_blank _ _ _ _ _ (capReached_some_zero _) hb,
        parseGo_cons_blank _ _ _ _ _ (capReached_none _) hb]
      exact ih colCount rows
    · have hb' : (lineClean l).isEmpty = false := by
        simpa using hb
      cases colCount with
      | none =>
        rw [parseGo_cons_first _ _ _ _ (capReached_some_zero _) hb',
          parseGo_cons_first _ _ _ _ (capReached_none _) hb']
        exact ih _ _
      | some n =>
        rw [parseGo_cons_locked _ _ _ _ _ (capReached_some_zero _) hb',
          parseGo_cons_locked _ _ _ _ _ (capReached_none _) hb']
        exact ih _ _

/-- With a positive cap k, the loop never produces more than k rows in total
(the pre-header-removal count, so the header is counted). -/
theorem parseGo_cap_bound (ls : List (List Char)) (k : Nat) (hk : 1 ≤ k) :
    ∀ colCount rows, rows.length ≤ k →
      (parseGo ls (some k) colCount rows).length ≤ k := by
  induction ls with
  | nil =>
    intro colCount rows h
    simpa [parseGo_nil] using h
  | cons l ls ih =>
    intro colCount rows h
    by_cases hc : capReached (some k) rows.length = true
    · rw [parseGo_cons_cap _ _ _ _ _ hc]
      exact h
    · have hc' : capReached (some k) rows.length = false := by
        simpa using hc
      have hlt : rows.length < k := by
        have := hc'
        simp [capReached] at this
        omega
      by_cases hb : (lineClean l).isEmpty = true
      · rw [parseGo_cons_blank _ _ _ _ _ hc' hb]
        exact ih colCount rows h
      · have hb' : (lineClean l).isEmpty = false := by
          simpa using hb
        cases colCount with
        | none =>
          rw [parseGo_cons_first _ _ _ _ hc' hb']
          refine ih _ _ ?_
          simp
          omega
        | some n =>
          rw [parseGo_cons_locked _ _ _ _ _ hc' hb']
          refine ih _ _ ?_
          simp
          omega

/-- C10: the cap check counts the header among the produced rows, so a cap of
k at least 1 leaves at most k - 1 data rows in the returned table, and a cap
of 0 behaves exactly like no cap. -/
theorem c10_row_cap :
    (∀ lines : List (List Char), ∀ k : Nat, ∀ t : PTable, 1 ≤ k →
        parse_text_file lines (some k) = Except.ok t → t.rows.length + 1 ≤ k) ∧
    (∀ lines : List (List Char), parse_text_file lines (some 0) = parse_text_file lines none) := by
  constructor
  · intro lines k t hk h
    have hb := parseGo_cap_bound lines k hk none [] (by simp)
    unfold parse_text_file at h
    cases hg : parseGo lines (some k) none [] with
    | nil =>
      rw [hg] at h
      cases h
    | cons hd tl =>
      rw [hg] at h
      injection h with h'
      rw [hg] at hb
      rw [← h']
      simpa using hb
  · intro lines
    unfold parse_text_file
    rw [parseGo_zerocap]

/-- C10 witness: with cap 2 the example stream keeps only one data row. -/
theorem c10_row_cap_witness : exTablePrev.rows.length + 1 ≤ 2 :=
  c10_row_cap.1 exLines 2 exTablePrev (by decide) rfl

/-- The first character surviving dropWhile fails the predicate. -/
theorem dropWhile_head_not (p : Char → Bool) (l : List Char) :
    ∀ a, (l.dropWhile p).head? = some a → p a = false := by
  induction l with
  | nil =>
    intro a h
    cases h
  | cons c t ih =>
    intro a h
    by_cases hc : p c = true
    · rw [List.dropWhile_cons, if_pos hc] at h
      exact ih a h
    · have hc' : p c = false := by
        simpa using hc
      rw [List.dropWhile_cons, if_neg (by simp [hc'])] at h
      have : a = c := by
        simpa using h.symm
      rw [this]
      exact hc'

/-- A list splits into its right-stripped part and a dropped suffix whose
characters all satisfy the predicate. -/
theorem dropRightWhile_decomp (p : Char → Bool) (l : List Char) :
    ∃ suf, l = dropRightWhile p l ++ suf ∧ ∀ c ∈ suf, p c = true := by
  refine ⟨(l.reverse.takeWhile p).reverse, ?_, ?_⟩
  · calc
      l = l.reverse.reverse := (List.reverse_reverse l).symm
      _ = (l.reverse.takeWhile p ++ l.reverse.dropWhile p).reverse := by
        rw [List.takeWhile_append_dropWhile]
      _ = (l.reverse.dropWhile p).reverse ++ (l.reverse.takeWhile p).reverse := by
        rw [List.reverse_append]
      _ = dropRightWhile p l ++ (l.reverse.takeWhile p).reverse := rfl
  · intro c hc
    exact List.mem_takeWhile_imp (List.mem_reverse.1 hc)

/-- A list splits into a dropped prefix, its stripped core, and a dropped
suffix; the dropped characters all satisfy the predicate. -/
theorem pyStrip_decomp (p : Char → Bool) (l : List Char) :
    ∃ pre suf, l = pre ++ pyStrip p l ++ suf ∧
      (∀ c ∈ pre, p c = true) ∧ ∀ c ∈ suf, p c = true := by
  obtain ⟨suf, hs, hsall⟩ := dropRightWhile_decomp p (l.dropWhile p)
  refine ⟨l.takeWhile p, suf, ?_, ?_, hsall⟩
  · rw [List.append_assoc]
    show l = l.takeWhile p ++ (dropRightWhile p (l.dropWhile p) ++ suf)
    rw [← hs, List.takeWhile_append_dropWhile]
  · intro c hc
    exact List.mem_takeWhile_imp hc

/-- The last character of a stripped list fails the predicate. -/
theorem pyStrip_getLast_not (p : Char → Bool) (l : List Char) :
    ∀ a, (pyStrip p l).getLast? = some a → p a = false := by
  intro a h
  have h2 : ((l.dropWhile p).reverse.dropWhile p).head? = some a := by
    rw [← List.getLast?_reverse]
    exact h
  exact dropWhile_head_not p _ a h2

/-- The first character of a stripped list fails the predicate. -/
theorem pyStrip_head_not (p : Char → Bool) (l : List Char) :
    ∀ a, (pyStrip p l).head? = some a → p a = false := by
  intro a h
  obtain ⟨suf, hs, _⟩ := dropRightWhile_decomp p (l.dropWhile p)
  have hne : pyStrip p l ≠ [] := by
    intro hnil
    rw [hnil] at h
    cases h
  have hh : (l.dropWhile p).head? = some a := by
    rw [hs]
    show (pyStrip p l ++ suf).head? = some a
    rw [List.head?_append_of_ne_nil _ hne]
    exact h
  exact dropWhile_head_not p l a hh

/-- A cleaned field never keeps a double quote at either end. -/
theorem cellClean_noBoundQuote (f : List Char) : noBoundQuote (cellClean f) = true := by
  have h1 := pyStrip_head_not (fun c => c == '\"') (pyStrip isPySpace f)
  have h2 := pyStrip_getLast_not (fun c => c == '\"') (pyStrip isPySpace f)
  unfold noBoundQuote cellClean
  rw [Bool.and_eq_true]
  constructor
  · cases h : (pyStrip (fun c => c == '\"') (pyStrip isPySpace f)).head? with
    | none => simp
    | some a =>
      have ha := h1 a h
      simp at ha ⊢
      exact ha
  · cases h : (pyStrip (fun c => c == '\"') (pyStrip isPySpace f)).getLast? with
    | none => simp
    | some a =>
      have ha := h2 a h
      simp at ha ⊢
      exact ha

/-- Every cell ever appended by the parser loop is a cleaned field, hence free
of boundary quotes. -/
theorem parseGo_cells_clean (ls : List (List Char)) (nrows : Option Nat) :
    ∀ colCount rows, (∀ r ∈ rows, ∀ c ∈ r, noBoundQuote c = true) →
      ∀ r ∈ parseGo ls nrows colCount rows, ∀ c ∈ r, noBoundQuote c = true := by
  induction ls with
  | nil =>
    intro colCount rows h
    simpa [parseGo_nil] using h
  | cons l ls ih =>
    intro colCount rows h
    by_cases hc : capReached nrows rows.length = true
    · rw [parseGo_cons_cap _ _ _ _ _ hc]
      exact h
    · have hc' : capReached nrows rows.length = false := by
        simpa using hc
      by_cases hb : (lineClean l).isEmpty = true
      · rw [parseGo_cons_blank _ _ _ _ _ hc' hb]
        exact ih colCount rows h
      · have hb' : (lineClean l).isEmpty = false := by
          simpa using hb
        have hnew : ∀ parts : List (List Char), ∀ c ∈ parts.map cellClean,
            noBoundQuote c = true := by
          intro parts c hcm
          obtain ⟨f, _, hf⟩ := List.mem_map.1 hcm
          rw [← hf]
          exact cellClean_noBoundQuote f
        cases colCount with
        | none =>
          rw [parseGo_cons_first _ _ _ _ hc' hb']
          refine ih _ _ ?_
          intro r hr
          rcases List.mem_append.1 hr with h1 | h1
          · exact h r h1
          · have hr2 : r = (splitPipe (quoteRepair (lineClean l))).map cellClean := by
              simpa using h1
            rw [hr2]
            exact hnew _
        | some n =>
          rw [parseGo_cons_locked _ _ _ _ _ hc' hb']
          refine ih _ _ ?_
          intro r hr
          rcases List.mem_append.1 hr with h1 | h1
          · exact h r h1
          · have hr2 : r = (normWidth (splitPipe (quoteRepair (lineClean l))) n).map cellClean := by
              simpa using h1
            rw [hr2]
            exact hnew _

/-- C3 counterexample: on the field ""x"" the code's cleaning strips all the
quote layers, not one; the spec-claimed one-layer cleaning keeps "x". -/
theorem c3_one_layer_refuted :
    cellClean (strL "\"\"x\"\"") = strL "x" ∧
    stripOneQuoteLayer (pyStrip isPySpace (strL "\"\"x\"\"")) = strL "\"x\"" ∧
    cellClean (strL "\"\"x\"\"") ≠ stripOneQuoteLayer (pyStrip isPySpace (strL "\"\"x\"\"")) := by
  refine ⟨by decide, by decide, by decide⟩

/-- C3 amended: each field is whitespace-stripped and then stripped of all
(not one layer of) leading and trailing double quotes, and this cleaning is
applied uniformly to every cell the parser produces, header included. -/
theorem c3_field_cleaning :
    (∀ f : List Char, ∃ m n_,
        pyStrip isPySpace f =
          List.replicate m '\"' ++ cellClean f ++ List.replicate n_ '\"') ∧
    (∀ f : List Char, noBoundQuote (cellClean f) = true) ∧
    (∀ lines : List (List Char), ∀ nrows : Option Nat, ∀ t : PTable,
        parse_text_file lines nrows = Except.ok t →
        ((t.header :: t.rows).all fun r => r.all noBoundQuote) = true) := by
  refine ⟨?_, cellClean_noBoundQuote, ?_⟩
  · intro f
    obtain ⟨pre, suf, hdec, hpre, hsuf⟩ :=
      pyStrip_decomp (fun c => c == '\"') (pyStrip isPySpace f)
    refine ⟨pre.length, suf.length, ?_⟩
    have hpre' : pre = List.replicate pre.length '\"' :=
      List.eq_replicate_of_mem (fun b hb => by simpa using hpre b hb)
    have hsuf' : suf = List.replicate suf.length '\"' :=
      List.eq_replicate_of_mem (fun b hb => by simpa using hsuf b hb)
    rw [← hpre', ← hsuf']
    exact hdec
  · intro lines nrows t h
    have hall := parseGo_cells_clean lines nrows none [] (by simp)
    unfold parse_text_file at h
    cases hg : parseGo lines nrows none [] with
    | nil =>
      rw [hg] at h
      cases h
    | cons hd tl =>
      rw [hg] at h
      injection h with h'
      rw [hg] at hall
      rw [List.all_eq_true]
      intro r hr
      rw [List.all_eq_true]
      intro c hc
      refine hall r ?_ c hc
      rw [← h'] at hr
      simpa using hr

/-- C3 witness: every cell of the parsed example table is boundary-quote free. -/
theorem c3_field_cleaning_witness :
    ((exTable.header :: exTable.rows).all fun r => r.all noBoundQuote) = true :=
  c3_field_cleaning.2.2 exLines none exTable rfl

/-- Unfolding: one decimal digit. -/
theorem natToDecGo_succ_lt (f n : Nat) (h : n < 10) :
    natToDecGo (f + 1) n = [decDigit n] := by
  simp [natToDecGo, h]

/-- Unfolding: more than one decimal digit. -/
theorem natToDecGo_succ_ge (f n : Nat) (h : ¬ n < 10) :
    natToDecGo (f + 1) n = natToDecGo f (n / 10) ++ [decDigit (n % 10)] := by
  simp [natToDecGo, h]

/-- The fuel does not matter once it exceeds the rendered number. -/
theorem natToDecGo_fuel (f : Nat) :
    ∀ g n, n < f → n < g → natToDecGo f n = natToDecGo g n := by
  induction f with
  | zero =>
    intro g n h
    omega
  | succ f ih =>
    intro g n hf hg
    cases g with
    | zero => omega
    | succ g =>
      by_cases h10 : n < 10
      · rw [natToDecGo_succ_lt f n h10, natToDecGo_succ_lt g n h10]
      · rw [natToDecGo_succ_ge f n h10, natToDecGo_succ_ge g n h10]
        have hdiv : n / 10 < n := Nat.div_lt_self (by omega) (by omega)
        rw [ih g (n / 10) (by omega) (by omega)]

/-- The decimal rendering satisfies the expected division recursion. -/
theorem natToDec_eq (n : Nat) :
    natToDec n = if n < 10 then [decDigit n] else natToDec (n / 10) ++ [decDigit (n % 10)] := by
  unfold natToDec
  by_cases h10 : n < 10
  · rw [natToDecGo_succ_lt n n h10, if_pos h10]
  · rw [natToDecGo_succ_ge n n h10, if_neg h10]
    have hdiv : n / 10 < n := Nat.div_lt_self (by omega) (by omega)
    rw [natToDecGo_fuel n (n / 10 + 1) (n / 10) (by omega) (by omega)]

/-- A decimal rendering is never empty. -/
theorem natToDec_ne_nil (n : Nat) : natToDec n ≠ [] := by
  rw [natToDec_eq]
  by_cases h10 : n < 10
  · rw [if_pos h10]
    simp
  · rw [if_neg h10]
    simp

/-- Digit characters of distinct digits differ. -/
theorem decDigit_inj : ∀ a, a < 10 → ∀ b, b < 10 → decDigit a = decDigit b → a = b := by
  decide

/-- Decimal renderings of distinct numbers differ. -/
theorem natToDec_inj : ∀ n m, natToDec n = natToDec m → n = m := by
  intro n
  induction n using Nat.strong_induction_on with
  | _ n ih =>
    intro m h
    rw [natToDec_eq n, natToDec_eq m] at h
    by_cases hn : n < 10 <;> by_cases hm : m < 10
    · rw [if_pos hn, if_pos hm] at h
      have hd : decDigit n = decDigit m := by
        simpa using h
      exact decDigit_inj n hn m hm hd
    · rw [if_pos hn, if_neg hm] at h
      exfalso
      have hne := natToDec_ne_nil (m / 10)
      have hlen := congrArg List.length h
      simp [List.length_append] at hlen
      cases hc : natToDec (m / 10) with
      | nil => exact hne hc
      | cons a t =>
        rw [hc] at hlen
        simp at hlen
    · rw [if_neg hn, if_pos hm] at h
      exfalso
      have hne := natToDec_ne_nil (n / 10)
      have hlen := congrArg List.length h
      simp [List.length_append] at hlen
      cases hc : natToDec (n / 10) with
      | nil => exact hne hc
      | cons a t =>
        rw [hc] at hlen
        simp at hlen
    · rw [if_neg hn, if_neg hm] at h
      have h2 := congrArg List.reverse h
      simp only [List.reverse_append, List.reverse_cons, List.reverse_nil,
        List.nil_append, List.singleton_append] at h2
      have hx : decDigit (n % 10) = decDigit (m % 10) := by
        injection h2
      have hrev : (natToDec (n / 10)).reverse = (natToDec (m / 10)).reverse := by
        injection h2
      have hq : natToDec (n / 10) = natToDec (m / 10) := by
        have := congrArg List.reverse hrev
        simpa using this
      have hmod : n % 10 = m % 10 :=
        decDigit_inj _ (Nat.mod_lt n (by omega)) _ (Nat.mod_lt m (by omega)) hx
      have hdivlt : n / 10 < n := Nat.div_lt_self (by omega) (by omega)
      have hdiv : n / 10 = m / 10 := ih (n / 10) hdivlt (m / 10) hq
      omega

/-- Candidate names of the collision loop are injective in the counter. -/
theorem cand_inj (base : String) (c c2 : Nat)
    (h : base ++ "_" ++ natStr c = base ++ "_" ++ natStr c2) : c = c2 := by
  have hd := congrArg String.data h
  rw [String.data_append, String.data_append, String.data_append, String.data_append,
    List.append_assoc, List.append_assoc] at hd
  have h1 := List.append_cancel_left hd
  have h2 := List.append_cancel_left h1
  exact natToDec_inj c c2 h2

/-- Two strings with the same character data are equal. -/
theorem string_data_eq {a b : String} (h : a.data = b.data) : a = b :=
  String.ext h

/-- The candidate at counter 2 is the base with suffix _2. -/
theorem cand_two (base : String) : base ++ "_" ++ natStr 2 = base ++ "_2" := by
  refine string_data_eq ?_
  rw [String.data_append, String.data_append, String.data_append, List.append_assoc]
  exact congrArg (fun t => base.data ++ t) (by decide)

/-- Unfolding: the collision loop out of fuel returns the current candidate. -/
theorem chooseLoop_zero (base : String) (used : List String) (c : Nat) :
    chooseLoop base used c 0 = base ++ "_" ++ natStr c := rfl

/-- Unfolding: the collision loop tries the current candidate first. -/
theorem chooseLoop_succ (base : String) (used : List String) (c fuel : Nat) :
    chooseLoop base used c (fuel + 1) =
      if (base ++ "_" ++ natStr c) ∈ used then chooseLoop base used (c + 1) fuel
      else base ++ "_" ++ natStr c := rfl

/-- If some candidate within the fuel window is free, the loop returns a name
that is not in used_columns. -/
theorem chooseLoop_free (base : String) (used : List String) :
    ∀ fuel c, (∃ j, c ≤ j ∧ j < c + fuel ∧ (base ++ "_" ++ natStr j) ∉ used) →
      chooseLoop base used c fuel ∉ used := by
  intro fuel
  induction fuel with
  | zero =>
    intro c h
    obtain ⟨j, h1, h2, _⟩ := h
    omega
  | succ fuel ih =>
    intro c h
    obtain ⟨j, h1, h2, h3⟩ := h
    rw [chooseLoop_succ]
    by_cases hc : (base ++ "_" ++ natStr c) ∈ used
    · rw [if_pos hc]
      refine ih (c + 1) ⟨j, ?_, by omega, h3⟩
      rcases Nat.eq_or_lt_of_le h1 with he | hl
      · exfalso
        rw [he] at hc
        exact h3 hc
      · omega
    · rw [if_neg hc]
      exact hc

/-- Pigeonhole: among used.length + 1 distinct candidates one is free. -/
theorem exists_free_cand (base : String) (used : List String) (c : Nat) :
    ∃ j, c ≤ j ∧ j < c + (used.length + 1) ∧ (base ++ "_" ++ natStr j) ∉ used := by
  by_contra hno
  push_neg at hno
  have hsub : ∀ s ∈ (List.range' c (used.length + 1)).map
      (fun j => base ++ "_" ++ natStr j), s ∈ used := by
    intro s hs
    obtain ⟨j, hj, hje⟩ := List.mem_map.1 hs
    obtain ⟨hj1, hj2⟩ := List.mem_range'_1.1 hj
    rw [← hje]
    exact hno j hj1 hj2
  have hinj : Function.Injective (fun j => base ++ "_" ++ natStr j) := by
    intro a b hab
    exact cand_inj base a b hab
  have hnd : ((List.range' c (used.length + 1)).map
      (fun j => base ++ "_" ++ natStr j)).Nodup :=
    List.Nodup.map hinj (List.nodup_range' c (used.length + 1))
  have hlen : ((List.range' c (used.length + 1)).map
      (fun j => base ++ "_" ++ natStr j)).length = used.length + 1 := by
    rw [List.length_map, List.length_range']
  have hcard : ((List.range' c (used.length + 1)).map
      (fun j => base ++ "_" ++ natStr j)).toFinset.card = used.length + 1 := by
    rw [List.toFinset_card_of_nodup hnd, hlen]
  have hsubF : ((List.range' c (used.length + 1)).map
      (fun j => base ++ "_" ++ natStr j)).toFinset ⊆ used.toFinset := by
    intro x hx
    rw [List.mem_toFinset] at hx ⊢
    exact hsub x hx
  have hle := Finset.card_le_card hsubF
  have hle2 := List.toFinset_card_le used
  omega

/-- The chosen column name is never an already-used name: the while loop of
run_lookup always terminates at a fresh name. -/
theorem chooseName_not_mem (base : String) (used : List String) :
    chooseName base used ∉ used := by
  unfold chooseName
  by_cases hb : base ∈ used
  · rw [if_pos hb]
    exact chooseLoop_free base used (used.length + 1) 2 (exists_free_cand base used 2)
  · rw [if_neg hb]
    exact hb

/-- An unused base name is chosen as is. -/
theorem chooseName_base (base : String) (used : List String) (h : base ∉ used) :
    chooseName base used = base := by
  unfold chooseName
  rw [if_neg h]

/-- Once the base name is registered, the next choice is base_2 provided that
name is not otherwise taken. -/
theorem chooseName_second (base : String) (cols : List String)
    (h2 : (base ++ "_2") ∉ cols) :
    chooseName base (cols ++ [base]) = base ++ "_2" := by
  have hb : base ∈ cols ++ [base] := by simp
  have hnotin : (base ++ "_2") ∉ cols ++ [base] := by
    intro hmem
    rcases List.mem_append.1 hmem with hm | hm
    · exact h2 hm
    · have he : base ++ "_2" = base := by simpa using hm
      have hlen2 := congrArg String.length he
      rw [String.length_append] at hlen2
      have h22 : ("_2" : String).length = 2 := rfl
      omega
  have hfuel : (cols ++ [base]).length + 1 = (cols.length + 1) + 1 := by simp
  unfold chooseName
  rw [if_pos hb, hfuel, chooseLoop_succ, cand_two, if_neg hnotin]

/-- Unfolding: no rules leave the accumulator untouched. -/
theorem goRules_nil (secondary : DF) (st : MergeState) (idx : Nat) :
    goRules secondary st idx [] = st := rfl

/-- Unfolding: one rule is executed, then the rest with the next index. -/
theorem goRules_cons (secondary : DF) (st : MergeState) (idx : Nat)
    (r : String × String × String) (rs : List (String × String × String)) :
    goRules secondary st idx (r :: rs) =
      goRules secondary (stepRule secondary st idx r) (idx + 1) rs := rfl

/-- Whether or not the rule body succeeds, its chosen name is registered. -/
theorem stepRule_used (secondary : DF) (st : MergeState) (idx : Nat)
    (r : String × String × String) :
    (stepRule secondary st idx r).used =
      st.used ++ [chooseName (r.1 ++ "_FROM_" ++ r.2.2) st.used] := by
  unfold stepRule
  cases h : applyRule secondary st.df r.1 r.2.1 r.2.2 with
  | ok col => rfl
  | error e => rfl

/-- A failing rule body leaves the frame unchanged and records the rule index. -/
theorem stepRule_error (secondary : DF) (st : MergeState) (idx : Nat)
    (r : String × String × String) (e : String)
    (h : applyRule secondary st.df r.1 r.2.1 r.2.2 = Except.error e) :
    stepRule secondary st idx r =
      ⟨st.df, st.used ++ [chooseName (r.1 ++ "_FROM_" ++ r.2.2) st.used],
       st.errs ++ [idx]⟩ := by
  unfold stepRule
  rw [h]

/-- A succeeding rule body appends the new column on the right. -/
theorem stepRule_ok (secondary : DF) (st : MergeState) (idx : Nat)
    (r : String × String × String) (col : List (Option String))
    (h : applyRule secondary st.df r.1 r.2.1 r.2.2 = Except.ok col) :
    stepRule secondary st idx r =
      ⟨⟨st.df.cols ++ [chooseName (r.1 ++ "_FROM_" ++ r.2.2) st.used],
        List.zipWith (fun row v => row ++ [v]) st.df.rows col⟩,
       st.used ++ [chooseName (r.1 ++ "_FROM_" ++ r.2.2) st.used], st.errs⟩ := by
  unfold stepRule
  rw [h]

/-- C8: collision-safe naming.  The chosen name never collides with a used
name, an unused base is taken as is, and two successive rules with the same
(primary key, source) pair register exactly the names X_FROM_Y and
X_FROM_Y_2, establishing order-dependent, deterministic naming. -/
theorem c8_collision_naming :
    (∀ base : String, ∀ used : List String, chooseName base used ∉ used) ∧
    (∀ base : String, ∀ used : List String, base ∉ used → chooseName base used = base) ∧
    (∀ p s : DF, ∀ pk sk so : String,
        (pk ++ "_FROM_" ++ so) ∉ p.cols →
        (pk ++ "_FROM_" ++ so ++ "_2") ∉ p.cols →
        (run_lookup p s [(pk, sk, so), (pk, sk, so)]).used =
          p.cols ++ [pk ++ "_FROM_" ++ so, pk ++ "_FROM_" ++ so ++ "_2"]) := by
  refine ⟨chooseName_not_mem, chooseName_base, ?_⟩
  intro p s pk sk so hb hb2
  unfold run_lookup
  rw [goRules_cons, goRules_cons, goRules_nil, stepRule_used, stepRule_used]
  have hst0 : (⟨p, p.cols, []⟩ : MergeState).used = p.cols := rfl
  rw [hst0, chooseName_base _ _ hb, chooseName_second _ _ hb2]
  simp

/-- C8 witness: the duplicate-pair rules on the concrete tables register
ID_FROM_NAME and ID_FROM_NAME_2. -/
theorem c8_collision_naming_witness :
    (run_lookup dfP dfSdup [("ID", "ID", "NAME"), ("ID", "ID", "NAME")]).used =
      dfP.cols ++ ["ID" ++ "_FROM_" ++ "NAME", "ID" ++ "_FROM_" ++ "NAME" ++ "_2"] :=
  c8_collision_naming.2.2 dfP dfSdup "ID" "ID" "NAME" (by decide) (by decide)

/-- Frame extension is reflexive. -/
theorem ExtendsDF_refl (d : DF) : ExtendsDF d d := by
  refine ⟨rfl, ⟨[], by simp⟩, ?_⟩
  intro i
  exact ⟨[], by simp⟩

/-- Frame extension is transitive. -/
theorem ExtendsDF_trans (a b c : DF) (h1 : ExtendsDF a b) (h2 : ExtendsDF b c) :
    ExtendsDF a c := by
  obtain ⟨hl1, ⟨ex1, hc1⟩, hr1⟩ := h1
  obtain ⟨hl2, ⟨ex2, hc2⟩, hr2⟩ := h2
  refine ⟨by omega, ⟨ex1 ++ ex2, by rw [hc2, hc1, List.append_assoc]⟩, ?_⟩
  intro i
  obtain ⟨e1, he1⟩ := hr1 i
  obtain ⟨e2, he2⟩ := hr2 i
  exact ⟨e1 ++ e2, by rw [he2, he1, List.append_assoc]⟩

/-- A successful rule body is a per-row map over the result frame. -/
theorem applyRule_ok_shape (secondary result : DF) (pk sk so : String)
    (col : List (Option String))
    (h : applyRule secondary result pk sk so = Except.ok col) :
    ∃ f, col = result.rows.map f := by
  unfold applyRule at h
  cases h1 : colIdx secondary.cols sk with
  | none =>
    simp only [h1] at h
    cases h
  | some ski =>
    simp only [h1] at h
    cases h2 : colIdx (secondary.cols.eraseIdx ski) so with
    | none =>
      simp only [h2] at h
      cases h
    | some soi =>
      simp only [h2] at h
      cases h3 : colIdx result.cols pk with
      | none =>
        simp only [h3] at h
        cases h
      | some pki =>
        simp only [h3] at h
        by_cases h4 : (keyColumn secondary ski).Nodup
        · rw [if_pos h4] at h
          injection h with h5
          exact ⟨_, h5.symm⟩
        · rw [if_neg h4] at h
          cases h

/-- Appending a per-row value keeps each row a right-extension of the old row. -/
theorem zipWith_append_extends (rows : List (List (Option String)))
    (col : List (Option String)) (hlen : col.length = rows.length) :
    ∀ i, ∃ exr, (List.zipWith (fun row v => row ++ [v]) rows col).getD i [] =
      rows.getD i [] ++ exr := by
  intro i
  by_cases hi : i < rows.length
  · have h1 : rows[i]? = some rows[i] := List.getElem?_eq_getElem hi
    have hic : i < col.length := by omega
    have h2 : col[i]? = some col[i] := List.getElem?_eq_getElem hic
    refine ⟨[col[i]], ?_⟩
    rw [List.getD_eq_getElem?_getD, List.getElem?_zipWith, h1, h2,
      List.getD_eq_getElem?_getD, h1]
    rfl
  · have h1 : rows[i]? = none := List.getElem?_eq_none (by omega)
    have h2 : col[i]? = none := List.getElem?_eq_none (by omega)
    refine ⟨[], ?_⟩
    rw [List.getD_eq_getElem?_getD, List.getElem?_zipWith, h1, h2,
      List.getD_eq_getElem?_getD, h1]
    rfl

/-- One rule step extends the result frame and never loses or reorders rows. -/
theorem stepRule_extends (secondary : DF) (st : MergeState) (idx : Nat)
    (r : String × String × String) :
    ExtendsDF st.df (stepRule secondary st idx r).df := by
  cases h : applyRule secondary st.df r.1 r.2.1 r.2.2 with
  | error e =>
    rw [stepRule_error secondary st idx r e h]
    exact ExtendsDF_refl st.df
  | ok col =>
    rw [stepRule_ok secondary st idx r col h]
    obtain ⟨f, hf⟩ := applyRule_ok_shape secondary st.df r.1 r.2.1 r.2.2 col h
    have hlen : col.length = st.df.rows.length := by
      rw [hf, List.length_map]
    refine ⟨?_, ⟨[chooseName (r.1 ++ "_FROM_" ++ r.2.2) st.used], rfl⟩, ?_⟩
    · show (List.zipWith (fun row v => row ++ [v]) st.df.rows col).length = _
      rw [List.length_zipWith, hlen]
      omega
    · exact zipWith_append_extends st.df.rows col hlen

/-- Running any rule list only ever extends the accumulated frame. -/
theorem goRules_extends (secondary : DF) :
    ∀ rs : List (String × String × String), ∀ st idx,
      ExtendsDF st.df (goRules secondary st idx rs).df := by
  intro rs
  induction rs with
  | nil =>
    intro st idx
    rw [goRules_nil]
    exact ExtendsDF_refl st.df
  | cons r rs ih =>
    intro st idx
    rw [goRules_cons]
    exact ExtendsDF_trans _ _ _ (stepRule_extends secondary st idx r)
      (ih (stepRule secondary st idx r) (idx + 1))

/-- C5: the merge is a pure left-outer enrichment.  For any primary and
secondary frame and any non-empty rule list, the result keeps the primary's
row count, keeps the original columns as a prefix in order, and every result
row is the unchanged primary row extended on the right only; the inputs are
passed by value (result_df = primary_df.copy()), so neither is mutated. -/
theorem c5_merge_preserves_primary (p s : DF) (rules : List (String × String × String))
    (_hr : rules ≠ []) :
    (run_lookup p s rules).df.rows.length = p.rows.length ∧
    (∃ ex, (run_lookup p s rules).df.cols = p.cols ++ ex) ∧
    ∀ i, ∃ exr, (run_lookup p s rules).df.rows.getD i [] = p.rows.getD i [] ++ exr :=
  goRules_extends s rules ⟨p, p.cols, []⟩ 1

/-- C5 witness: the single-rule merge on the concrete tables keeps the row
count of the primary. -/
theorem c5_merge_preserves_primary_witness :
    (run_lookup dfP dfSuniq [("ID", "K", "V")]).df.rows.length = dfP.rows.length :=
  (c5_merge_preserves_primary dfP dfSuniq [("ID", "K", "V")] (by decide)).1

/-- Rule lists compose: running pre ++ post runs pre first, then post with the
indices shifted past pre. -/
theorem goRules_append (secondary : DF) (pre : List (String × String × String)) :
    ∀ post st idx, goRules secondary st idx (pre ++ post) =
      goRules secondary (goRules secondary st idx pre) (idx + pre.length) post := by
  induction pre with
  | nil =>
    intro post st idx
    simp [goRules_nil]
  | cons r pre ih =>
    intro post st idx
    show goRules secondary (stepRule secondary st idx r) (idx + 1) (pre ++ post) = _
    rw [ih]
    have hidx : idx + 1 + pre.length = idx + (r :: pre).length := by
      simp only [List.length_cons]
      omega
    rw [hidx]
    rfl

/-- C7: a failing rule is isolated.  If the rule after the prefix pre fails to
resolve its columns, that step leaves the accumulated frame untouched, and
the whole merge equals the continuation over the remaining rules started from
the pre-state with only the failed rule's name registered and its index
recorded; the remaining rules still execute on the unchanged frame. -/
theorem c7_rule_failure_isolated (p s : DF)
    (pre post : List (String × String × String)) (pk sk so : String) (e : String)
    (h : applyRule s (goRules s ⟨p, p.cols, []⟩ 1 pre).df pk sk so = Except.error e) :
    (stepRule s (goRules s ⟨p, p.cols, []⟩ 1 pre) (1 + pre.length) (pk, sk, so)).df =
      (goRules s ⟨p, p.cols, []⟩ 1 pre).df ∧
    run_lookup p s (pre ++ (pk, sk, so) :: post) =
      goRules s
        ⟨(goRules s ⟨p, p.cols, []⟩ 1 pre).df,
         (goRules s ⟨p, p.cols, []⟩ 1 pre).used ++
           [chooseName (pk ++ "_FROM_" ++ so) (goRules s ⟨p, p.cols, []⟩ 1 pre).used],
         (goRules s ⟨p, p.cols, []⟩ 1 pre).errs ++ [1 + pre.length]⟩
        (1 + pre.length + 1) post := by
  constructor
  · rw [stepRule_error s _ (1 + pre.length) (pk, sk, so) e h]
  · unfold run_lookup
    rw [goRules_append, goRules_cons,
      stepRule_error s _ (1 + pre.length) (pk, sk, so) e h]

/-- C7 witness: a rule naming the absent primary column ZZ fails in isolation
and the following rule still runs from the unchanged frame. -/
theorem c7_rule_failure_isolated_witness :
    (stepRule dfSdup (goRules dfSdup ⟨dfP, dfP.cols, []⟩ 1 []) (1 + ([] : List (String × String × String)).length) ("ZZ", "ID", "NAME")).df =
      (goRules dfSdup ⟨dfP, dfP.cols, []⟩ 1 []).df ∧
    run_lookup dfP dfSdup ([] ++ ("ZZ", "ID", "NAME") :: [("ID", "ID", "NAME")]) =
      goRules dfSdup
        ⟨(goRules dfSdup ⟨dfP, dfP.cols, []⟩ 1 []).df,
         (goRules dfSdup ⟨dfP, dfP.cols, []⟩ 1 []).used ++
           [chooseName ("ZZ" ++ "_FROM_" ++ "NAME") (goRules dfSdup ⟨dfP, dfP.cols, []⟩ 1 []).used],
         (goRules dfSdup ⟨dfP, dfP.cols, []⟩ 1 []).errs ++ [1 + ([] : List (String × String × String)).length]⟩
        (1 + ([] : List (String × String × String)).length + 1) [("ID", "ID", "NAME")] :=
  c7_rule_failure_isolated dfP dfSdup [] [("ID", "ID", "NAME")] "ZZ" "ID" "NAME"
    "KeyError-primary-column" rfl

/-- When all three columns resolve and the key column is duplicate-free, the
rule body succeeds and maps every result row through the lookup. -/
theorem applyRule_resolved (secondary result : DF) (pk sk so : String)
    (ski soi pki : Nat)
    (h1 : colIdx secondary.cols sk = some ski)
    (h2 : colIdx (secondary.cols.eraseIdx ski) so = some soi)
    (h3 : colIdx result.cols pk = some pki)
    (h4 : (keyColumn secondary ski).Nodup) :
    applyRule secondary result pk sk so = Except.ok (result.rows.map (fun r =>
      lookupKey (r.getD pki none)
        ((keyColumn secondary ski).zip (srcColumn secondary ski soi)))) := by
  unfold applyRule
  rw [h1]
  simp only [h2, h3, if_pos h4]

/-- When the key column holds a duplicate value, the map step raises the
pandas unique-index error even though every column resolved. -/
theorem applyRule_dup_keys (secondary result : DF) (pk sk so : String)
    (ski soi pki : Nat)
    (h1 : colIdx secondary.cols sk = some ski)
    (h2 : colIdx (secondary.cols.eraseIdx ski) so = some soi)
    (h3 : colIdx result.cols pk = some pki)
    (h4 : ¬ (keyColumn secondary ski).Nodup) :
    applyRule secondary result pk sk so = Except.error "InvalidIndexError" := by
  unfold applyRule
  rw [h1]
  simp only [h2, h3, if_neg h4]

/-- A key absent from the first components of the pairs finds nothing. -/
theorem lookupKey_not_mem (k : Option String) :
    ∀ ps : List (Option String × Option String),
      k ∉ ps.map Prod.fst → lookupKey k ps = none := by
  intro ps
  induction ps with
  | nil =>
    intro _
    rfl
  | cons hd tl ih =>
    intro h
    obtain ⟨a, v⟩ := hd
    simp only [List.map_cons, List.mem_cons, not_or] at h
    obtain ⟨hka, hkr⟩ := h
    show (if a = k then v else lookupKey k tl) = none
    rw [if_neg (fun he => hka he.symm)]
    exact ih hkr

/-- The key column has one entry per secondary row. -/
theorem keyColumn_length (s : DF) (ski : Nat) :
    (keyColumn s ski).length = s.rows.length := by
  unfold keyColumn
  rw [List.length_map]

/-- The source column has one entry per secondary row. -/
theorem srcColumn_length (s : DF) (ski soi : Nat) :
    (srcColumn s ski soi).length = s.rows.length := by
  unfold srcColumn
  rw [List.length_map]

/-- Appending the per-row mapped value: the row at i gains exactly the mapped
cell for that row. -/
theorem zipWith_map_getD (rows : List (List (Option String)))
    (f : List (Option String) → Option String) (i : Nat) (hi : i < rows.length) :
    (List.zipWith (fun row v => row ++ [v]) rows (rows.map f)).getD i [] =
      rows.getD i [] ++ [f (rows.getD i [])] := by
  have h1 : rows[i]? = some rows[i] := List.getElem?_eq_getElem hi
  have h3 : rows.getD i [] = rows[i] := by
    rw [List.getD_eq_getElem?_getD, h1]
    rfl
  have h2 : (rows.map f)[i]? = some (f rows[i]) := by
    rw [List.getElem?_map, h1]
    rfl
  rw [List.getD_eq_getElem?_getD, List.getElem?_zipWith, h1, h2, h3]
  rfl

/-- C2 amended: a duplicated value in the rule's secondary key column does not
produce last-key-wins enrichment; the map step raises, the per-rule handler
records the failure, and the rule is skipped, leaving the frame unchanged. -/
theorem c2_duplicate_keys_error (p s : DF) (pk sk so : String) (ski soi pki : Nat)
    (h1 : colIdx s.cols sk = some ski)
    (h2 : colIdx (s.cols.eraseIdx ski) so = some soi)
    (h3 : colIdx p.cols pk = some pki)
    (h4 : ¬ (keyColumn s ski).Nodup) :
    (run_lookup p s [(pk, sk, so)]).df = p ∧
    (run_lookup p s [(pk, sk, so)]).errs = [1] := by
  have he : applyRule s p pk sk so = Except.error "InvalidIndexError" :=
    applyRule_dup_keys s p pk sk so ski soi pki h1 h2 h3 h4
  unfold run_lookup
  rw [goRules_cons, goRules_nil,
    stepRule_error s ⟨p, p.cols, []⟩ 1 (pk, sk, so) "InvalidIndexError" he]
  exact ⟨rfl, rfl⟩

/-- C2 counterexample: with the key 1 duplicated in the secondary, the merge
does not enrich with the later row's value y; it adds no column at all and
records a rule error. -/
theorem c2_last_key_wins_refuted :
    ¬ (keyColumn dfSdup 0).Nodup ∧
    (run_lookup dfP dfSdup [("ID", "ID", "NAME")]).df = dfP ∧
    (run_lookup dfP dfSdup [("ID", "ID", "NAME")]).errs = [1] := by
  refine ⟨by decide, by decide, by decide⟩

/-- C2 witness at the concrete duplicate-key tables. -/
theorem c2_duplicate_keys_error_witness :
    (run_lookup dfP dfSdup [("ID", "ID", "NAME")]).df = dfP ∧
    (run_lookup dfP dfSdup [("ID", "ID", "NAME")]).errs = [1] :=
  c2_duplicate_keys_error dfP dfSdup "ID" "ID" "NAME" 0 0 0
    (by decide) (by decide) (by decide) (by decide)

/-- C6 amended: when the rule's columns resolve and the secondary key column
is duplicate-free, a primary row whose key occurs nowhere in the key column
receives an absent cell (NaN) in the rule's new column, and the rule records
no error. -/
theorem c6_missing_key_absent_cell (p s : DF) (pk sk so : String)
    (ski soi pki i : Nat)
    (h1 : colIdx s.cols sk = some ski)
    (h2 : colIdx (s.cols.eraseIdx ski) so = some soi)
    (h3 : colIdx p.cols pk = some pki)
    (h4 : (keyColumn s ski).Nodup)
    (hi : i < p.rows.length)
    (hmiss : (p.rows.getD i []).getD pki none ∉ keyColumn s ski) :
    (run_lookup p s [(pk, sk, so)]).errs = [] ∧
    (run_lookup p s [(pk, sk, so)]).df.cols =
      p.cols ++ [chooseName (pk ++ "_FROM_" ++ so) p.cols] ∧
    (run_lookup p s [(pk, sk, so)]).df.rows.getD i [] =
      p.rows.getD i [] ++ [none] := by
  have hok := applyRule_resolved s p pk sk so ski soi pki h1 h2 h3 h4
  have hmapfst : ((keyColumn s ski).zip (srcColumn s ski soi)).map Prod.fst =
      keyColumn s ski :=
    List.map_fst_zip _ _ (by rw [keyColumn_length, srcColumn_length])
  have hnone : lookupKey ((p.rows.getD i []).getD pki none)
      ((keyColumn s ski).zip (srcColumn s ski soi)) = none := by
    refine lookupKey_not_mem _ _ ?_
    rw [hmapfst]
    exact hmiss
  unfold run_lookup
  rw [goRules_cons, goRules_nil,
    stepRule_ok s ⟨p, p.cols, []⟩ 1 (pk, sk, so) _ hok]
  refine ⟨rfl, rfl, ?_⟩
  show (List.zipWith (fun row v => row ++ [v]) p.rows
      (p.rows.map (fun r => lookupKey (r.getD pki none)
        ((keyColumn s ski).zip (srcColumn s ski soi))))).getD i [] =
      p.rows.getD i [] ++ [none]
  rw [zipWith_map_getD p.rows _ i hi]
  simp only [hnone]

/-- C6 counterexample: the primary key 7 occurs nowhere in the secondary key
column, yet because that column holds a duplicate value the rule errors out
and no new column (hence no absent cell) is produced at all. -/
theorem c6_missing_key_refuted :
    ((dfP7.rows.getD 0 []).getD 0 none ∉ keyColumn dfSdup2 0) ∧
    colIdx dfSdup2.cols "K" = some 0 ∧
    colIdx (dfSdup2.cols.eraseIdx 0) "V" = some 0 ∧
    colIdx dfP7.cols "ID" = some 0 ∧
    (run_lookup dfP7 dfSdup2 [("ID", "K", "V")]).df.cols = dfP7.cols ∧
    (run_lookup dfP7 dfSdup2 [("ID", "K", "V")]).errs ≠ [] := by
  refine ⟨by decide, by decide, by decide, by decide, by decide, by decide⟩

/-- C6 witness at the concrete unique-key tables: key 7 is missing, the rule
succeeds and appends an absent cell. -/
theorem c6_missing_key_absent_cell_witness :
    (run_lookup dfP7 dfSuniq [("ID", "K", "V")]).errs = [] ∧
    (run_lookup dfP7 dfSuniq [("ID", "K", "V")]).df.cols =
      dfP7.cols ++ [chooseName ("ID" ++ "_FROM_" ++ "V") dfP7.cols] ∧
    (run_lookup dfP7 dfSuniq [("ID", "K", "V")]).df.rows.getD 0 [] =
      dfP7.rows.getD 0 [] ++ [none] :=
  c6_missing_key_absent_cell dfP7 dfSuniq "ID" "K" "V" 0 0 0 0
    (by decide) (by decide) (by decide) (by decide) (by decide) (by decide)
